import Mathlib

/-!
Verification of the obsidian_ai plugin core.

Shallow embedding of the line-level diff engine
(`src/modules/writing-improver.ts`), the AI backend client
(`src/ai/client.ts`: process-exit mapping, idempotent promise settlement,
responses-shape normalization), and the spec-modelled thread-resume
argument builder.  Machine integers do not overflow in the modelled
ranges, strings are modelled as Lean strings, `.trim()` is modelled at
the character-list level, and JSON bodies as an inductive value type.
-/

namespace ObsidianAi

/-! ## Line tokenizer: `splitLines` (writing-improver.ts, lines 29-31)

`text.split(/\r?\n/)`: split at every `\n`, also consuming one `\r`
directly before it.  The accumulator holds the characters of the current
line in reverse order. -/

def chopCR : List Char → List Char
  | '\r' :: rest => rest
  | acc => acc

def splitLinesAux : List Char → List Char → List String
  | acc, [] => [String.mk acc.reverse]
  | acc, c :: rest =>
    if c = '\n' then String.mk ((chopCR acc).reverse) :: splitLinesAux [] rest
    else splitLinesAux (c :: acc) rest

def splitLines (text : String) : List String :=
  splitLinesAux [] text.data

/-! ## Diff engine (writing-improver.ts, lines 33-94)

The source fills a rolling LCS score row plus a full `directions` grid,
then backtracks from the bottom-right corner.  `lcsLen a b i j` is the
value the rolling computation stores for cell `(i, j)` (the source's
`curr[j]` while processing row `i`), and `dirOf a b i j` is the byte the
source stores in `directions[i * cols + j]`. -/

def lcsLen (a b : List String) : Nat → Nat → Nat
  | 0, _ => 0
  | _ + 1, 0 => 0
  | i + 1, j + 1 =>
    if a.getD i "" = b.getD j "" then lcsLen a b i j + 1
    else if lcsLen a b i (j + 1) ≥ lcsLen a b (i + 1) j then lcsLen a b i (j + 1)
    else lcsLen a b (i + 1) j

def dirOf (a b : List String) (i j : Nat) : Nat :=
  if i = 0 ∨ j = 0 then 0
  else if a.getD (i - 1) "" = b.getD (j - 1) "" then 3
  else if lcsLen a b (i - 1) j ≥ lcsLen a b i (j - 1) then 1
  else 2

inductive DiffOp where
  | equal (line : String)
  | insert (line : String)
  | delete (line : String)
deriving DecidableEq, Repr

def DiffOp.line : DiffOp → String
  | .equal l => l
  | .insert l => l
  | .delete l => l

def isEqual : DiffOp → Bool
  | .equal _ => true
  | _ => false

def isInsert : DiffOp → Bool
  | .insert _ => true
  | _ => false

def isDelete : DiffOp → Bool
  | .delete _ => true
  | _ => false

def isEqualOrDelete (op : DiffOp) : Bool := isEqual op || isDelete op

def isEqualOrInsert (op : DiffOp) : Bool := isEqual op || isInsert op

/-- The backtracking loop of `buildUnifiedDiff` (lines 67-91), producing
the operations in the order the source pushes them (which is reverse
emission order; the source reverses at line 93). -/
def backtrackRev (a b : List String) (i j : Nat) : List DiffOp :=
  if hij : i = 0 ∧ j = 0 then []
  else if h3 : 0 < i ∧ 0 < j ∧ dirOf a b i j = 3 then
    DiffOp.equal (b.getD (j - 1) "") :: backtrackRev a b (i - 1) (j - 1)
  else if h2 : 0 < j ∧ (i = 0 ∨ dirOf a b i j = 2) then
    DiffOp.insert (b.getD (j - 1) "") :: backtrackRev a b i (j - 1)
  else if h1 : 0 < i then
    DiffOp.delete (a.getD (i - 1) "") :: backtrackRev a b (i - 1) j
  else []
termination_by i + j
decreasing_by all_goals omega

/-- The edit script of `buildUnifiedDiff` in emission order. -/
def diffScript (a b : List String) : List DiffOp :=
  (backtrackRev a b a.length b.length).reverse

def renderOp : DiffOp → String
  | .equal l => " " ++ l
  | .insert l => "+" ++ l
  | .delete l => "-" ++ l

/-- JavaScript `Array.prototype.join(sep)`. -/
def joinSep (sep : String) : List String → String
  | [] => ""
  | [x] => x
  | x :: y :: rest => x ++ sep ++ joinSep sep (y :: rest)

def sentinelMessage : String :=
  "Diff is too large to render safely. Apply to inspect full changes in note view."

def buildUnifiedDiff (originalText updatedText : String) : String :=
  let originalLines := splitLines originalText
  let updatedLines := splitLines updatedText
  let n := originalLines.length
  let m := updatedLines.length
  if n * m > 250000 then sentinelMessage
  else joinSep "\n" ((diffScript originalLines updatedLines).map renderOp)

/-- Lines of Equal and Delete operations, in emission order (the
reconstruction of the original text in the round-trip invariant). -/
def origLines (s : List DiffOp) : List String :=
  (s.filter isEqualOrDelete).map DiffOp.line

/-- Lines of Equal and Insert operations, in emission order (the
reconstruction of the updated text in the round-trip invariant). -/
def updLines (s : List DiffOp) : List String :=
  (s.filter isEqualOrInsert).map DiffOp.line

/-- Lines of Equal operations, in emission order. -/
def eqLines (s : List DiffOp) : List String :=
  (s.filter isEqual).map DiffOp.line

/-- The first character a rendered operation line carries. -/
def markerChar : DiffOp → Char
  | .equal _ => ' '
  | .insert _ => '+'
  | .delete _ => '-'

/-! ## JavaScript string trim

Model of `String.prototype.trim()`: remove leading and trailing
whitespace, at the character-list level. -/

def isJsWhitespace (c : Char) : Bool := c.isWhitespace

def jsTrim (s : String) : String :=
  String.mk (((s.data.dropWhile isJsWhitespace).reverse.dropWhile isJsWhitespace).reverse)

/-! ## Process invoker: `spawnCommand` (client.ts, lines 191-256)

The promise body is modelled as a state machine over the events the
handlers receive: stdout/stderr data chunks, the timeout timer firing,
and the child process close event.  The `settled` flag guards both
settlement paths exactly as in the source. -/

def jsCodeString : Option Int → String
  | none => "null"
  | some n => toString n

/-- The outcome computed by the close handler (lines 247-253). -/
def closeOutcome (code : Option Int) (stdout stderr : String) : Except String String :=
  if code = some 0 then Except.ok (jsTrim stdout)
  else if jsTrim stderr = "" then
    Except.error ("Codex CLI exited with code " ++ jsCodeString code ++ ".")
  else Except.error (jsTrim stderr)

inductive SpawnEvent where
  | stdoutData (chunk : String)
  | stderrData (chunk : String)
  | timeoutFire
  | close (code : Option Int)

structure SpawnState where
  stdout : String
  stderr : String
  settled : Bool
  outcome : Option (Except String String)

def initSpawnState : SpawnState :=
  { stdout := "", stderr := "", settled := false, outcome := none }

def timeoutMessage (timeoutMs : Nat) : String :=
  "Codex CLI timed out after " ++ toString timeoutMs ++ "ms."

def spawnStep (timeoutMs : Nat) (s : SpawnState) : SpawnEvent → SpawnState
  | .stdoutData c => { s with stdout := s.stdout ++ c }
  | .stderrData c => { s with stderr := s.stderr ++ c }
  | .timeoutFire =>
    if s.settled then s
    else { s with settled := true,
                  outcome := some (Except.error (timeoutMessage timeoutMs)) }
  | .close code =>
    if s.settled then s
    else { s with settled := true,
                  outcome := some (closeOutcome code s.stdout s.stderr) }

def spawnRun (timeoutMs : Nat) (events : List SpawnEvent) : SpawnState :=
  events.foldl (spawnStep timeoutMs) initSpawnState

/-! ## JSON model and responses normalization (client.ts, lines 57-146) -/

inductive Json where
  | null
  | bool (b : Bool)
  | num (n : Int)
  | str (s : String)
  | arr (items : List Json)
  | obj (fields : List (String × Json))

def lookupField : List (String × Json) → String → Option Json
  | [], _ => none
  | (k, v) :: rest, key => if k = key then some v else lookupField rest key

/-- JavaScript property access `value?.field` on a parsed JSON value. -/
def getField : Json → String → Option Json
  | .obj fields, key => lookupField fields key
  | _, _ => none

/-- One step of the inner loop of `extractTextFromResponseOutput`
(lines 137-142): push the trimmed text of a block when it is a
non-whitespace string. -/
def pushBlock (acc : List String) (block : Json) : List String :=
  match getField block "text" with
  | some (.str t) => if jsTrim t = "" then acc else acc ++ [jsTrim t]
  | _ => acc

/-- One step of the outer loop (lines 131-143): walk a structured output
item's content blocks when the content is an array. -/
def pushItem (acc : List String) (item : Json) : List String :=
  match getField item "content" with
  | some (.arr blocks) => blocks.foldl pushBlock acc
  | _ => acc

/-- `extractTextFromResponseOutput` (lines 124-146). -/
def extractTextFromResponseOutput (output : Json) : String :=
  match output with
  | .arr items => jsTrim (joinSep "\n\n" (items.foldl pushItem []))
  | _ => ""

/-- The success-path normalization of `improveWithResponses`
(lines 82-91): prefer the trimmed top-level `output_text`, falling back
to the structured output walk. -/
def normalizeResponses (output_text : Option String) (output : Json) : Except String String :=
  let textFromTopLevel := jsTrim (output_text.getD "")
  if textFromTopLevel ≠ "" then Except.ok textFromTopLevel
  else
    let textFromOutput := extractTextFromResponseOutput output
    if textFromOutput = "" then Except.error "AI API returned no text."
    else Except.ok textFromOutput

/-- Declarative form of one item's contribution to the collected chunks:
its blocks in order, keeping each block's trimmed text when it is a
string with non-whitespace content. -/
def blockText (block : Json) : Option String :=
  match getField block "text" with
  | some (.str t) => if jsTrim t = "" then none else some (jsTrim t)
  | _ => none

def itemBlocks (item : Json) : List Json :=
  match getField item "content" with
  | some (.arr blocks) => blocks
  | _ => []

/-- Declarative form of the full collection walk, in list order. -/
def collectBlocks : List Json → List String
  | [] => []
  | item :: rest => (itemBlocks item).filterMap blockText ++ collectBlocks rest

/-- The structured output list of §8's normalization example: two output
items, each carrying one text block. -/
def responsesExampleOutput : List Json :=
  [Json.obj [("content", Json.arr [Json.obj [("text", Json.str "hello")]])],
   Json.obj [("content", Json.arr [Json.obj [("text", Json.str "world")]])]]

def responsesExampleBody : Json := Json.arr responsesExampleOutput

/-! ## Thread directives and the Codex CLI argument vector -/

inductive CodexThreadMode where
  | new
  | last
  | specific
deriving DecidableEq

/-- The plain execute argument vector (client.ts, line 48). -/
def plainCodexArgs (model fullPrompt : String) : List String :=
  ["exec", "--skip-git-repo-check", "-m", model, fullPrompt]

/-- Modelled from the spec: the thread-aware CLI argument builder is not
among the sources here (only its caller, which resolves a per-file
override and passes `codexThreadMode` and `codexThreadId` into the
client).  §4.3 of the spec: mode new uses the plain execute form with no
resume argument, while the resume modes switch to an explicit resume
subcommand form, carrying the target thread id for mode
resume-specific and a most-recent marker for mode resume-last. -/
def buildCodexArgs (mode : CodexThreadMode) (threadId : Option String)
    (model fullPrompt : String) : List String :=
  match mode with
  | .new => plainCodexArgs model fullPrompt
  | .last => ["exec", "resume", "--last", "--skip-git-repo-check", "-m", model, fullPrompt]
  | .specific =>
    ["exec", "resume", threadId.getD "", "--skip-git-repo-check", "-m", model, fullPrompt]

/-! ## General list helpers -/

theorem take_succ_getD {α : Type} (l : List α) (n : Nat) (d : α) (h : n < l.length) :
    l.take (n + 1) = l.take n ++ [l.getD n d] := by
  rw [List.take_succ]
  congr 1
  rw [List.getD_eq_getElem?_getD, List.getElem?_eq_getElem h]
  rfl

theorem sublist_concat_cases {α : Type} {l xs : List α} {x : α} (h : l.Sublist (xs ++ [x])) :
    l.Sublist xs ∨ ∃ l2, l = l2 ++ [x] ∧ l2.Sublist xs := by
  have hrev : l.reverse.Sublist (x :: xs.reverse) := by
    have := List.reverse_sublist.mpr h
    simpa using this
  rcases List.sublist_cons_iff.mp hrev with hcase | ⟨r, hr, hrsub⟩
  · left
    have := List.reverse_sublist.mpr hcase
    simpa using this
  · right
    refine ⟨r.reverse, ?_, ?_⟩
    · have : l.reverse.reverse = (x :: r).reverse := by rw [hr]
      simpa using this
    · have := List.reverse_sublist.mpr hrsub
      simpa using this

theorem splitLinesAux_ne_nil : ∀ (cs acc : List Char), splitLinesAux acc cs ≠ []
  | [], acc => by simp [splitLinesAux]
  | c :: rest, acc => by
    by_cases hc : c = '\n' <;> simp [splitLinesAux, hc, splitLinesAux_ne_nil rest]

theorem splitLines_ne_nil (t : String) : splitLines t ≠ [] :=
  splitLinesAux_ne_nil t.data []

/-! ## Facts about the direction grid and the score recurrence -/

theorem lcsLen_zero_right (a b : List String) (i : Nat) : lcsLen a b i 0 = 0 := by
  cases i
  · rw [lcsLen.eq_1]
  · rw [lcsLen.eq_2]

theorem dirOf_succ_succ (a b : List String) (i j : Nat) :
    dirOf a b (i + 1) (j + 1) =
      if a.getD i "" = b.getD j "" then 3
      else if lcsLen a b i (j + 1) ≥ lcsLen a b (i + 1) j then 1
      else 2 := by
  unfold dirOf
  simp

theorem dir3_lines_eq {a b : List String} {i j : Nat}
    (h : dirOf a b (i + 1) (j + 1) = 3) : a.getD i "" = b.getD j "" := by
  rw [dirOf_succ_succ] at h
  by_cases heq : a.getD i "" = b.getD j ""
  · exact heq
  · rw [if_neg heq] at h
    by_cases hge : lcsLen a b i (j + 1) ≥ lcsLen a b (i + 1) j <;>
      simp [hge] at h

theorem lcsLen_succ_succ_of_eq {a b : List String} {i j : Nat}
    (heq : a.getD i "" = b.getD j "") :
    lcsLen a b (i + 1) (j + 1) = lcsLen a b i j + 1 := by
  rw [lcsLen.eq_3, if_pos heq]

theorem lcsLen_succ_succ_dir1 {a b : List String} {i j : Nat}
    (h : dirOf a b (i + 1) (j + 1) = 1) :
    lcsLen a b (i + 1) (j + 1) = lcsLen a b i (j + 1) := by
  rw [dirOf_succ_succ] at h
  by_cases heq : a.getD i "" = b.getD j ""
  · rw [if_pos heq] at h; omega
  · rw [if_neg heq] at h
    by_cases hge : lcsLen a b i (j + 1) ≥ lcsLen a b (i + 1) j
    · rw [lcsLen.eq_3, if_neg heq, if_pos hge]
    · rw [if_neg hge] at h; omega

theorem lcsLen_succ_succ_dir2 {a b : List String} {i j : Nat}
    (h : dirOf a b (i + 1) (j + 1) = 2) :
    lcsLen a b (i + 1) (j + 1) = lcsLen a b (i + 1) j := by
  rw [dirOf_succ_succ] at h
  by_cases heq : a.getD i "" = b.getD j ""
  · rw [if_pos heq] at h; omega
  · rw [if_neg heq] at h
    by_cases hge : lcsLen a b i (j + 1) ≥ lcsLen a b (i + 1) j
    · rw [if_pos hge] at h; omega
    · rw [lcsLen.eq_3, if_neg heq, if_neg hge]

theorem filter_ED_equal_cons (x : String) (s : List DiffOp) :
    (DiffOp.equal x :: s).filter isEqualOrDelete = DiffOp.equal x :: s.filter isEqualOrDelete := rfl

theorem filter_ED_insert_cons (x : String) (s : List DiffOp) :
    (DiffOp.insert x :: s).filter isEqualOrDelete = s.filter isEqualOrDelete := rfl

theorem filter_ED_delete_cons (x : String) (s : List DiffOp) :
    (DiffOp.delete x :: s).filter isEqualOrDelete = DiffOp.delete x :: s.filter isEqualOrDelete := rfl

theorem filter_EI_equal_cons (x : String) (s : List DiffOp) :
    (DiffOp.equal x :: s).filter isEqualOrInsert = DiffOp.equal x :: s.filter isEqualOrInsert := rfl

theorem filter_EI_insert_cons (x : String) (s : List DiffOp) :
    (DiffOp.insert x :: s).filter isEqualOrInsert = DiffOp.insert x :: s.filter isEqualOrInsert := rfl

theorem filter_EI_delete_cons (x : String) (s : List DiffOp) :
    (DiffOp.delete x :: s).filter isEqualOrInsert = s.filter isEqualOrInsert := rfl

theorem filter_EQ_equal_cons (x : String) (s : List DiffOp) :
    (DiffOp.equal x :: s).filter isEqual = DiffOp.equal x :: s.filter isEqual := rfl

theorem filter_EQ_insert_cons (x : String) (s : List DiffOp) :
    (DiffOp.insert x :: s).filter isEqual = s.filter isEqual := rfl

theorem filter_EQ_delete_cons (x : String) (s : List DiffOp) :
    (DiffOp.delete x :: s).filter isEqual = s.filter isEqual := rfl

theorem dir_ne_two_ne_three {a b : List String} {i j : Nat}
    (h2 : dirOf a b (i + 1) (j + 1) ≠ 2) (h3 : dirOf a b (i + 1) (j + 1) ≠ 3) :
    dirOf a b (i + 1) (j + 1) = 1 := by
  rw [dirOf_succ_succ] at h2 h3 ⊢
  by_cases heq : a.getD i "" = b.getD j ""
  · exact absurd (if_pos heq) h3
  · rw [if_neg heq] at h2 ⊢
    by_cases hge : lcsLen a b i (j + 1) ≥ lcsLen a b (i + 1) j
    · exact if_pos hge
    · exact absurd (if_neg hge) h2

/-- Core round-trip invariant of the backtracking loop: reading the
Equal+Delete lines (respectively Equal+Insert lines) of the operations
pushed while backtracking from cell `(i, j)` reconstructs the prefix of
the original (respectively updated) line sequence, reversed. -/
theorem backtrackRev_reconstructs (a b : List String) :
    ∀ (N i j : Nat), i + j ≤ N → i ≤ a.length → j ≤ b.length →
      ((backtrackRev a b i j).filter isEqualOrDelete).map DiffOp.line = (a.take i).reverse
      ∧ ((backtrackRev a b i j).filter isEqualOrInsert).map DiffOp.line = (b.take j).reverse := by
  intro N
  induction N with
  | zero =>
    intro i j hN hi hj
    have hi0 : i = 0 := by omega
    have hj0 : j = 0 := by omega
    subst hi0; subst hj0
    rw [backtrackRev.eq_def]
    simp
  | succ N ih =>
    intro i j hN hi hj
    by_cases hij : i = 0 ∧ j = 0
    · obtain ⟨rfl, rfl⟩ := hij
      rw [backtrackRev.eq_def]
      simp
    · by_cases h3 : 0 < i ∧ 0 < j ∧ dirOf a b i j = 3
      · obtain ⟨hi0, hj0, hdir⟩ := h3
        obtain ⟨i', rfl⟩ : ∃ i', i = i' + 1 := ⟨i - 1, by omega⟩
        obtain ⟨j', rfl⟩ : ∃ j', j = j' + 1 := ⟨j - 1, by omega⟩
        rw [backtrackRev.eq_def, dif_neg hij, dif_pos ⟨hi0, hj0, hdir⟩]
        have heq : a.getD i' "" = b.getD j' "" := dir3_lines_eq hdir
        obtain ⟨ihA, ihB⟩ := ih i' j' (by omega) (by omega) (by omega)
        have hsa : (i' + 1) - 1 = i' := by omega
        have hsb : (j' + 1) - 1 = j' := by omega
        rw [hsa, hsb]
        constructor
        · rw [filter_ED_equal_cons, List.map_cons, ihA,
            take_succ_getD a i' "" (by omega), List.reverse_append]
          simp only [List.getD_eq_getElem?_getD] at heq
          simp [DiffOp.line, heq]
        · rw [filter_EI_equal_cons, List.map_cons, ihB,
            take_succ_getD b j' "" (by omega), List.reverse_append]
          simp [DiffOp.line]
      · by_cases h2 : 0 < j ∧ (i = 0 ∨ dirOf a b i j = 2)
        · obtain ⟨j', rfl⟩ : ∃ j', j = j' + 1 := ⟨j - 1, by omega⟩
          rw [backtrackRev.eq_def, dif_neg hij, dif_neg h3, dif_pos h2]
          obtain ⟨ihA, ihB⟩ := ih i j' (by omega) (by omega) (by omega)
          have hsb : (j' + 1) - 1 = j' := by omega
          rw [hsb]
          constructor
          · rw [filter_ED_insert_cons, ihA]
          · rw [filter_EI_insert_cons, List.map_cons, ihB,
              take_succ_getD b j' "" (by omega), List.reverse_append]
            simp [DiffOp.line]
        · by_cases h1 : 0 < i
          · obtain ⟨i', rfl⟩ : ∃ i', i = i' + 1 := ⟨i - 1, by omega⟩
            rw [backtrackRev.eq_def, dif_neg hij, dif_neg h3, dif_neg h2, dif_pos h1]
            obtain ⟨ihA, ihB⟩ := ih i' j (by omega) (by omega) (by omega)
            have hsa : (i' + 1) - 1 = i' := by omega
            rw [hsa]
            constructor
            · rw [filter_ED_delete_cons, List.map_cons, ihA,
                take_succ_getD a i' "" (by omega), List.reverse_append]
              simp [DiffOp.line]
            · rw [filter_EI_delete_cons, ihB]
          · exfalso
            have hi0 : i = 0 := by omega
            have hj0 : j = 0 := by
              by_contra hjne
              exact h2 ⟨Nat.pos_of_ne_zero hjne, Or.inl hi0⟩
            exact hij ⟨hi0, hj0⟩

theorem dirOf_zero_left (a b : List String) (j : Nat) : dirOf a b 0 j = 0 := by
  unfold dirOf
  simp

/-- The number of Equal operations pushed while backtracking from cell
`(i, j)` is exactly the score the dynamic program stored in that cell. -/
theorem backtrackRev_equal_count (a b : List String) :
    ∀ (N i j : Nat), i + j ≤ N →
      ((backtrackRev a b i j).filter isEqual).length = lcsLen a b i j := by
  intro N
  induction N with
  | zero =>
    intro i j hN
    have hi0 : i = 0 := by omega
    have hj0 : j = 0 := by omega
    subst hi0; subst hj0
    rw [backtrackRev.eq_def]
    simp [lcsLen.eq_1]
  | succ N ih =>
    intro i j hN
    by_cases hij : i = 0 ∧ j = 0
    · obtain ⟨rfl, rfl⟩ := hij
      rw [backtrackRev.eq_def]
      simp [lcsLen.eq_1]
    · by_cases h3 : 0 < i ∧ 0 < j ∧ dirOf a b i j = 3
      · obtain ⟨hi0, hj0, hdir⟩ := h3
        obtain ⟨i', rfl⟩ : ∃ i', i = i' + 1 := ⟨i - 1, by omega⟩
        obtain ⟨j', rfl⟩ : ∃ j', j = j' + 1 := ⟨j - 1, by omega⟩
        rw [backtrackRev.eq_def, dif_neg hij, dif_pos ⟨hi0, hj0, hdir⟩]
        have heq : a.getD i' "" = b.getD j' "" := dir3_lines_eq hdir
        have hsa : (i' + 1) - 1 = i' := by omega
        have hsb : (j' + 1) - 1 = j' := by omega
        rw [hsa, hsb, filter_EQ_equal_cons, List.length_cons,
          ih i' j' (by omega), lcsLen_succ_succ_of_eq heq]
      · by_cases h2 : 0 < j ∧ (i = 0 ∨ dirOf a b i j = 2)
        · obtain ⟨j', rfl⟩ : ∃ j', j = j' + 1 := ⟨j - 1, by omega⟩
          rw [backtrackRev.eq_def, dif_neg hij, dif_neg h3, dif_pos h2]
          have hsb : (j' + 1) - 1 = j' := by omega
          rw [hsb, filter_EQ_insert_cons, ih i j' (by omega)]
          rcases h2.2 with hi0 | hdir2
          · subst hi0
            rw [lcsLen.eq_1, lcsLen.eq_1]
          · have hi0 : i ≠ 0 := by
              intro hc
              subst hc
              rw [dirOf_zero_left] at hdir2
              omega
            obtain ⟨i', rfl⟩ : ∃ i', i = i' + 1 := ⟨i - 1, by omega⟩
            rw [lcsLen_succ_succ_dir2 hdir2]
        · by_cases h1 : 0 < i
          · obtain ⟨i', rfl⟩ : ∃ i', i = i' + 1 := ⟨i - 1, by omega⟩
            rw [backtrackRev.eq_def, dif_neg hij, dif_neg h3, dif_neg h2, dif_pos h1]
            have hsa : (i' + 1) - 1 = i' := by omega
            rw [hsa, filter_EQ_delete_cons, ih i' j (by omega)]
            by_cases hj0 : j = 0
            · subst hj0
              rw [lcsLen_zero_right, lcsLen_zero_right]
            · obtain ⟨j', rfl⟩ : ∃ j', j = j' + 1 := ⟨j - 1, by omega⟩
              have hd3 : dirOf a b (i' + 1) (j' + 1) ≠ 3 := fun hc =>
                h3 ⟨by omega, by omega, hc⟩
              have hd2 : dirOf a b (i' + 1) (j' + 1) ≠ 2 := fun hc =>
                h2 ⟨by omega, Or.inr hc⟩
              rw [lcsLen_succ_succ_dir1 (dir_ne_two_ne_three hd2 hd3)]
          · exfalso
            have hi0 : i = 0 := by omega
            have hj0 : j = 0 := by
              by_contra hjne
              exact h2 ⟨Nat.pos_of_ne_zero hjne, Or.inl hi0⟩
            exact hij ⟨hi0, hj0⟩

/-- The score the dynamic program stores in cell `(i, j)` bounds the
length of every common subsequence of the two prefixes. -/
theorem lcsLen_is_upper_bound (a b : List String) :
    ∀ (N i j : Nat) (l : List String), i + j ≤ N → i ≤ a.length → j ≤ b.length →
      l.Sublist (a.take i) → l.Sublist (b.take j) → l.length ≤ lcsLen a b i j := by
  intro N
  induction N with
  | zero =>
    intro i j l hN hi hj ha hb
    have hi0 : i = 0 := by omega
    subst hi0
    simp only [List.take_zero, List.sublist_nil] at ha
    subst ha
    simp
  | succ N ih =>
    intro i j l hN hi hj ha hb
    by_cases hi0 : i = 0
    · subst hi0
      simp only [List.take_zero, List.sublist_nil] at ha
      subst ha
      simp
    · by_cases hj0 : j = 0
      · subst hj0
        simp only [List.take_zero, List.sublist_nil] at hb
        subst hb
        simp
      · obtain ⟨i', rfl⟩ : ∃ i', i = i' + 1 := ⟨i - 1, by omega⟩
        obtain ⟨j', rfl⟩ : ∃ j', j = j' + 1 := ⟨j - 1, by omega⟩
        have haOrig := ha
        have hbOrig := hb
        rw [take_succ_getD a i' "" (by omega)] at ha
        rw [take_succ_getD b j' "" (by omega)] at hb
        by_cases heq : a.getD i' "" = b.getD j' ""
        · rw [lcsLen_succ_succ_of_eq heq]
          rcases sublist_concat_cases ha with ha' | ⟨l2, rfl, hl2⟩
          · rcases sublist_concat_cases hb with hb' | ⟨l3, rfl, hl3⟩
            · have := ih i' j' l (by omega) (by omega) (by omega) ha' hb'
              omega
            · have hl3a : l3.Sublist (a.take i') :=
                (List.sublist_append_left l3 _).trans ha'
              have := ih i' j' l3 (by omega) (by omega) (by omega) hl3a hl3
              simp only [List.length_append, List.length_cons, List.length_nil]
              omega
          · rcases sublist_concat_cases hb with hb' | ⟨l3, hEq, hl3⟩
            · have hl2b : l2.Sublist (b.take j') :=
                (List.sublist_append_left l2 _).trans hb'
              have := ih i' j' l2 (by omega) (by omega) (by omega) hl2 hl2b
              simp only [List.length_append, List.length_cons, List.length_nil]
              omega
            · have hll : l2 = l3 := (List.append_inj' hEq rfl).1
              subst hll
              have := ih i' j' l2 (by omega) (by omega) (by omega) hl2 hl3
              simp only [List.length_append, List.length_cons, List.length_nil]
              omega
        · have hbound : l.length ≤ lcsLen a b i' (j' + 1)
              ∨ l.length ≤ lcsLen a b (i' + 1) j' := by
            rcases sublist_concat_cases ha with ha' | ⟨l2, rfl, hl2⟩
            · exact Or.inl (ih i' (j' + 1) l (by omega) (by omega) (by omega) ha' hbOrig)
            · rcases sublist_concat_cases hb with hb' | ⟨l3, hEq, hl3⟩
              · exact Or.inr (ih (i' + 1) j' _ (by omega) (by omega) (by omega) haOrig hb')
              · exfalso
                have hx : [a.getD i' ""] = [b.getD j' ""] := (List.append_inj' hEq rfl).2
                simp only [List.cons.injEq, and_true] at hx
                exact heq hx
          rw [lcsLen.eq_3, if_neg heq]
          rcases hbound with hb1 | hb2 <;> split <;> omega

theorem filter_IN_equal_cons (x : String) (s : List DiffOp) :
    (DiffOp.equal x :: s).filter isInsert = s.filter isInsert := rfl

theorem filter_IN_insert_cons (x : String) (s : List DiffOp) :
    (DiffOp.insert x :: s).filter isInsert = DiffOp.insert x :: s.filter isInsert := rfl

theorem filter_IN_delete_cons (x : String) (s : List DiffOp) :
    (DiffOp.delete x :: s).filter isInsert = s.filter isInsert := rfl

theorem filter_DL_equal_cons (x : String) (s : List DiffOp) :
    (DiffOp.equal x :: s).filter isDelete = s.filter isDelete := rfl

theorem filter_DL_insert_cons (x : String) (s : List DiffOp) :
    (DiffOp.insert x :: s).filter isDelete = s.filter isDelete := rfl

theorem filter_DL_delete_cons (x : String) (s : List DiffOp) :
    (DiffOp.delete x :: s).filter isDelete = DiffOp.delete x :: s.filter isDelete := rfl

theorem filter_EQ_sublist_ED :
    ∀ s : List DiffOp, (s.filter isEqual).Sublist (s.filter isEqualOrDelete)
  | [] => List.Sublist.refl _
  | .equal x :: s => by
    rw [filter_EQ_equal_cons, filter_ED_equal_cons]
    exact List.Sublist.cons₂ _ (filter_EQ_sublist_ED s)
  | .insert x :: s => by
    rw [filter_EQ_insert_cons, filter_ED_insert_cons]
    exact filter_EQ_sublist_ED s
  | .delete x :: s => by
    rw [filter_EQ_delete_cons, filter_ED_delete_cons]
    exact List.Sublist.cons _ (filter_EQ_sublist_ED s)

theorem filter_EQ_sublist_EI :
    ∀ s : List DiffOp, (s.filter isEqual).Sublist (s.filter isEqualOrInsert)
  | [] => List.Sublist.refl _
  | .equal x :: s => by
    rw [filter_EQ_equal_cons, filter_EI_equal_cons]
    exact List.Sublist.cons₂ _ (filter_EQ_sublist_EI s)
  | .insert x :: s => by
    rw [filter_EQ_insert_cons, filter_EI_insert_cons]
    exact List.Sublist.cons _ (filter_EQ_sublist_EI s)
  | .delete x :: s => by
    rw [filter_EQ_delete_cons, filter_EI_delete_cons]
    exact filter_EQ_sublist_EI s

theorem length_filter_ED :
    ∀ s : List DiffOp, (s.filter isEqualOrDelete).length
      = (s.filter isEqual).length + (s.filter isDelete).length
  | [] => rfl
  | .equal x :: s => by
    rw [filter_ED_equal_cons, filter_EQ_equal_cons, filter_DL_equal_cons,
      List.length_cons, List.length_cons, length_filter_ED s]
    omega
  | .insert x :: s => by
    rw [filter_ED_insert_cons, filter_EQ_insert_cons, filter_DL_insert_cons,
      length_filter_ED s]
  | .delete x :: s => by
    rw [filter_ED_delete_cons, filter_EQ_delete_cons, filter_DL_delete_cons,
      List.length_cons, List.length_cons, length_filter_ED s]
    omega

theorem length_filter_EI :
    ∀ s : List DiffOp, (s.filter isEqualOrInsert).length
      = (s.filter isEqual).length + (s.filter isInsert).length
  | [] => rfl
  | .equal x :: s => by
    rw [filter_EI_equal_cons, filter_EQ_equal_cons, filter_IN_equal_cons,
      List.length_cons, List.length_cons, length_filter_EI s]
    omega
  | .insert x :: s => by
    rw [filter_EI_insert_cons, filter_EQ_insert_cons, filter_IN_insert_cons,
      List.length_cons, List.length_cons, length_filter_EI s]
    omega
  | .delete x :: s => by
    rw [filter_EI_delete_cons, filter_EQ_delete_cons, filter_IN_delete_cons,
      length_filter_EI s]

/-! ## Script-level corollaries -/

theorem origLines_diffScript (a b : List String) : origLines (diffScript a b) = a := by
  unfold origLines diffScript
  rw [List.filter_reverse, List.map_reverse,
    (backtrackRev_reconstructs a b (a.length + b.length) a.length b.length
      (le_refl _) (le_refl _) (le_refl _)).1]
  simp

theorem updLines_diffScript (a b : List String) : updLines (diffScript a b) = b := by
  unfold updLines diffScript
  rw [List.filter_reverse, List.map_reverse,
    (backtrackRev_reconstructs a b (a.length + b.length) a.length b.length
      (le_refl _) (le_refl _) (le_refl _)).2]
  simp

theorem eqCount_diffScript (a b : List String) :
    ((diffScript a b).filter isEqual).length = lcsLen a b a.length b.length := by
  unfold diffScript
  rw [List.filter_reverse, List.length_reverse,
    backtrackRev_equal_count a b (a.length + b.length) a.length b.length (le_refl _)]

theorem common_sublist_length_le (a b : List String) (l : List String)
    (ha : l.Sublist a) (hb : l.Sublist b) :
    l.length ≤ lcsLen a b a.length b.length := by
  refine lcsLen_is_upper_bound a b (a.length + b.length) a.length b.length l
    (le_refl _) (le_refl _) (le_refl _) ?_ ?_
  · rw [List.take_length]; exact ha
  · rw [List.take_length]; exact hb

theorem eqLines_sublist_left (a b : List String) :
    (eqLines (diffScript a b)).Sublist a := by
  have h := List.Sublist.map DiffOp.line (filter_EQ_sublist_ED (diffScript a b))
  rw [show (((diffScript a b).filter isEqualOrDelete).map DiffOp.line)
      = origLines (diffScript a b) from rfl, origLines_diffScript] at h
  exact h

theorem eqLines_sublist_right (a b : List String) :
    (eqLines (diffScript a b)).Sublist b := by
  have h := List.Sublist.map DiffOp.line (filter_EQ_sublist_EI (diffScript a b))
  rw [show (((diffScript a b).filter isEqualOrInsert).map DiffOp.line)
      = updLines (diffScript a b) from rfl, updLines_diffScript] at h
  exact h

theorem diffScript_minimal (a b : List String) :
    (eqLines (diffScript a b)).Sublist a
    ∧ (eqLines (diffScript a b)).Sublist b
    ∧ (∀ l : List String, l.Sublist a → l.Sublist b →
        l.length ≤ (eqLines (diffScript a b)).length)
    ∧ ((diffScript a b).filter isInsert).length
        + ((diffScript a b).filter isDelete).length
        + 2 * ((diffScript a b).filter isEqual).length
      = a.length + b.length := by
  refine ⟨eqLines_sublist_left a b, eqLines_sublist_right a b, ?_, ?_⟩
  · intro l hla hlb
    have hub := common_sublist_length_le a b l hla hlb
    rw [eqLines, List.length_map, eqCount_diffScript]
    exact hub
  · have h1 := congrArg List.length (origLines_diffScript a b)
    rw [origLines, List.length_map, length_filter_ED] at h1
    have h2 := congrArg List.length (updLines_diffScript a b)
    rw [updLines, List.length_map, length_filter_EI] at h2
    omega

/-! ## Trimming lemmas -/

theorem dropWhile_idem {α : Type} (p : α → Bool) :
    ∀ l : List α, (l.dropWhile p).dropWhile p = l.dropWhile p
  | [] => rfl
  | c :: l => by
    by_cases hc : p c = true
    · rw [List.dropWhile_cons, if_pos hc]
      exact dropWhile_idem p l
    · rw [List.dropWhile_cons, if_neg hc, List.dropWhile_cons, if_neg hc]

theorem dropWhile_append_singleton {α : Type} (p : α → Bool) (x : α) (hx : ¬ p x = true) :
    ∀ xs : List α, (xs ++ [x]).dropWhile p = xs.dropWhile p ++ [x]
  | [] => by
    rw [List.nil_append, List.dropWhile_cons, if_neg hx, List.dropWhile_nil, List.nil_append]
  | a :: xs => by
    by_cases ha : p a = true
    · rw [List.cons_append, List.dropWhile_cons, if_pos ha, List.dropWhile_cons, if_pos ha]
      exact dropWhile_append_singleton p x hx xs
    · rw [List.cons_append, List.dropWhile_cons, if_neg ha, List.dropWhile_cons, if_neg ha,
        List.cons_append]

theorem dropWhile_tail_trim {α : Type} (p : α → Bool) (l : List α)
    (hl : l.dropWhile p = l) :
    ((l.reverse.dropWhile p).reverse).dropWhile p = (l.reverse.dropWhile p).reverse := by
  match l with
  | [] => rfl
  | h :: t =>
    have hph : ¬ p h = true := by
      intro hc
      rw [List.dropWhile_cons, if_pos hc] at hl
      have h1 := congrArg List.length hl
      have h2 := (List.dropWhile_sublist (l := t) p).length_le
      simp only [List.length_cons] at h1
      omega
    rw [List.reverse_cons, dropWhile_append_singleton p h hph, List.reverse_append]
    rw [show ([h] : List α).reverse = [h] from rfl, List.singleton_append,
      List.dropWhile_cons, if_neg hph]

theorem jsTrim_idem (s : String) : jsTrim (jsTrim s) = jsTrim s := by
  unfold jsTrim
  congr 1
  rw [show (String.mk (((s.data.dropWhile isJsWhitespace).reverse.dropWhile
      isJsWhitespace).reverse)).data
    = ((s.data.dropWhile isJsWhitespace).reverse.dropWhile isJsWhitespace).reverse from rfl]
  have h1 : (((s.data.dropWhile isJsWhitespace).reverse.dropWhile
      isJsWhitespace).reverse).dropWhile isJsWhitespace
      = ((s.data.dropWhile isJsWhitespace).reverse.dropWhile isJsWhitespace).reverse :=
    dropWhile_tail_trim isJsWhitespace (s.data.dropWhile isJsWhitespace)
      (dropWhile_idem isJsWhitespace s.data)
  rw [h1, List.reverse_reverse, dropWhile_idem]

/-! ## Sentinel distinctness -/

theorem renderOp_data (op : DiffOp) :
    (renderOp op).data = markerChar op :: (DiffOp.line op).data := by
  cases op <;> rfl

theorem joinSep_render_head (op : DiffOp) (rest : List DiffOp) :
    ∃ cs : List Char,
      (joinSep "\n" ((op :: rest).map renderOp)).data = markerChar op :: cs := by
  match rest with
  | [] =>
    exact ⟨(DiffOp.line op).data, by rw [List.map_cons, List.map_nil]; exact renderOp_data op⟩
  | op2 :: rest2 =>
    refine ⟨(DiffOp.line op).data ++ "\n".data
      ++ (joinSep "\n" ((op2 :: rest2).map renderOp)).data, ?_⟩
    rw [List.map_cons, List.map_cons]
    rw [show joinSep "\n" (renderOp op :: renderOp op2 :: List.map renderOp rest2)
      = renderOp op ++ "\n" ++ joinSep "\n" (renderOp op2 :: List.map renderOp rest2) from rfl]
    rw [String.data_append, String.data_append, renderOp_data]
    simp

theorem joinSep_render_ne_sentinel (ops : List DiffOp) (h : ops ≠ []) :
    joinSep "\n" (ops.map renderOp) ≠ sentinelMessage := by
  match ops with
  | [] => exact absurd rfl h
  | op :: rest =>
    obtain ⟨cs, hdata⟩ := joinSep_render_head op rest
    intro hEq
    have hd : markerChar op :: cs = sentinelMessage.data := by
      rw [← hdata, hEq]
    have hh := congrArg List.head? hd
    rw [show sentinelMessage.data.head? = some 'D' from rfl, List.head?_cons] at hh
    have : markerChar op = 'D' := Option.some.inj hh
    cases op <;> simp [markerChar] at this

theorem diffScript_ne_nil (a b : List String) (ha : a ≠ []) : diffScript a b ≠ [] := by
  intro h
  have horig := origLines_diffScript a b
  rw [h] at horig
  exact ha horig.symm

/-! ## Spawn settlement lemmas -/

theorem spawnStep_of_settled (t : Nat) (s : SpawnState) (e : SpawnEvent)
    (h : s.settled = true) :
    (spawnStep t s e).settled = true ∧ (spawnStep t s e).outcome = s.outcome := by
  cases e <;> simp [spawnStep, h]

theorem foldl_spawnStep_of_settled (t : Nat) :
    ∀ (more : List SpawnEvent) (s : SpawnState), s.settled = true →
      (more.foldl (spawnStep t) s).settled = true
      ∧ (more.foldl (spawnStep t) s).outcome = s.outcome
  | [], s, h => ⟨h, rfl⟩
  | e :: more, s, h => by
    obtain ⟨h1, h2⟩ := spawnStep_of_settled t s e h
    obtain ⟨h3, h4⟩ := foldl_spawnStep_of_settled t more (spawnStep t s e) h1
    exact ⟨h3, by rw [List.foldl_cons, h4, h2]⟩

theorem spawnStep_outcome_invariant (t : Nat) (s : SpawnState) (e : SpawnEvent)
    (h : s.settled = false → s.outcome = none) :
    (spawnStep t s e).settled = false → (spawnStep t s e).outcome = none := by
  cases e with
  | stdoutData c => intro hs; exact h hs
  | stderrData c => intro hs; exact h hs
  | timeoutFire =>
    by_cases hset : s.settled = true
    · simp [spawnStep, hset]
    · simp only [Bool.not_eq_true] at hset
      simp [spawnStep, hset]
  | close code =>
    by_cases hset : s.settled = true
    · simp [spawnStep, hset]
    · simp only [Bool.not_eq_true] at hset
      simp [spawnStep, hset]

theorem spawnRun_unsettled_no_outcome (t : Nat) :
    ∀ (evts : List SpawnEvent) (s : SpawnState), (s.settled = false → s.outcome = none) →
      (evts.foldl (spawnStep t) s).settled = false →
      (evts.foldl (spawnStep t) s).outcome = none
  | [], s, h => h
  | e :: evts, s, h =>
    spawnRun_unsettled_no_outcome t evts (spawnStep t s e)
      (spawnStep_outcome_invariant t s e h)

/-! ## Responses-walk lemmas -/

theorem pushBlock_eq (acc : List String) (block : Json) :
    pushBlock acc block = acc ++ (blockText block).toList := by
  unfold pushBlock blockText
  cases hgf : getField block "text" with
  | none => simp
  | some v =>
    cases v with
    | str t =>
      by_cases ht : jsTrim t = "" <;> simp [ht]
    | null => simp
    | bool b => simp
    | num n => simp
    | arr xs => simp
    | obj fs => simp

theorem foldl_pushBlock (blocks : List Json) :
    ∀ acc : List String, blocks.foldl pushBlock acc = acc ++ blocks.filterMap blockText := by
  induction blocks with
  | nil => intro acc; simp
  | cons b bs ih =>
    intro acc
    rw [List.foldl_cons, ih, pushBlock_eq, List.filterMap_cons]
    cases hb : blockText b <;> simp

theorem pushItem_eq (acc : List String) (item : Json) :
    pushItem acc item = acc ++ (itemBlocks item).filterMap blockText := by
  unfold pushItem itemBlocks
  cases hgf : getField item "content" with
  | none => simp
  | some v =>
    cases v with
    | arr blocks => exact foldl_pushBlock blocks acc
    | null => simp
    | bool b => simp
    | num n => simp
    | str t => simp
    | obj fs => simp

theorem foldl_pushItem (items : List Json) :
    ∀ acc : List String, items.foldl pushItem acc = acc ++ collectBlocks items := by
  induction items with
  | nil => intro acc; simp [collectBlocks]
  | cons it its ih =>
    intro acc
    rw [List.foldl_cons, ih, pushItem_eq, collectBlocks, List.append_assoc]

theorem extract_eq_collect (items : List Json) :
    extractTextFromResponseOutput (Json.arr items)
      = jsTrim (joinSep "\n\n" (collectBlocks items)) := by
  rw [show extractTextFromResponseOutput (Json.arr items)
    = jsTrim (joinSep "\n\n" (items.foldl pushItem [])) from rfl]
  rw [foldl_pushItem items [], List.nil_append]

theorem blockText_trimmed {block : Json} {c : String} (h : blockText block = some c) :
    jsTrim c = c ∧ c ≠ "" := by
  unfold blockText at h
  cases hgf : getField block "text" with
  | none => rw [hgf] at h; cases h
  | some v =>
    rw [hgf] at h
    cases v with
    | str t =>
      replace h : (if jsTrim t = "" then (none : Option String) else some (jsTrim t))
          = some c := h
      by_cases ht : jsTrim t = ""
      · rw [if_pos ht] at h; cases h
      · rw [if_neg ht] at h
        have hc : c = jsTrim t := (Option.some.inj h).symm
        subst hc
        exact ⟨jsTrim_idem t, ht⟩
    | null => cases h
    | bool b => cases h
    | num n => cases h
    | arr xs => cases h
    | obj fs => cases h

theorem collectBlocks_mem :
    ∀ (items : List Json) (c : String), c ∈ collectBlocks items → jsTrim c = c ∧ c ≠ ""
  | [], c, h => by cases h
  | item :: rest, c, h => by
    rw [collectBlocks, List.mem_append] at h
    rcases h with h | h
    · obtain ⟨blk, _, hblk⟩ := List.mem_filterMap.mp h
      exact blockText_trimmed hblk
    · exact collectBlocks_mem rest c h

/-! ## Claim theorems -/

/-- **C1**: for every pair of texts whose line-count product is within the
size-guard ceiling, `buildUnifiedDiff` renders the computed edit script,
and that script, read in emission order, reconstructs both inputs: its
Equal+Delete lines equal `splitLines` of the original text, and its
Equal+Insert lines equal `splitLines` of the updated text. -/
theorem claim1_roundTrip (A B : String)
    (h : (splitLines A).length * (splitLines B).length ≤ 250000) :
    buildUnifiedDiff A B
      = joinSep "\n" ((diffScript (splitLines A) (splitLines B)).map renderOp)
    ∧ origLines (diffScript (splitLines A) (splitLines B)) = splitLines A
    ∧ updLines (diffScript (splitLines A) (splitLines B)) = splitLines B := by
  refine ⟨?_, origLines_diffScript _ _, updLines_diffScript _ _⟩
  simp only [buildUnifiedDiff]
  rw [if_neg (not_lt.mpr h)]

/-- Witness for C1 at the concrete pair ("a", "b"). -/
theorem claim1_roundTrip_witness :
    (splitLines "a").length * (splitLines "b").length ≤ 250000
    ∧ (buildUnifiedDiff "a" "b"
        = joinSep "\n" ((diffScript (splitLines "a") (splitLines "b")).map renderOp)
      ∧ origLines (diffScript (splitLines "a") (splitLines "b")) = splitLines "a"
      ∧ updLines (diffScript (splitLines "a") (splitLines "b")) = splitLines "b") :=
  ⟨by decide, claim1_roundTrip "a" "b" (by decide)⟩

/-- **C2**: for every pair of texts within the size-guard ceiling, the
edit script of `buildUnifiedDiff` is minimal: its Equal lines form a
common subsequence of the two tokenized inputs of maximal length, and
the number of Insert plus Delete operations equals n + m minus twice the
Equal count. -/
theorem claim2_minimality (A B : String)
    (h : (splitLines A).length * (splitLines B).length ≤ 250000) :
    (eqLines (diffScript (splitLines A) (splitLines B))).Sublist (splitLines A)
    ∧ (eqLines (diffScript (splitLines A) (splitLines B))).Sublist (splitLines B)
    ∧ (∀ l : List String, l.Sublist (splitLines A) → l.Sublist (splitLines B) →
        l.length ≤ (eqLines (diffScript (splitLines A) (splitLines B))).length)
    ∧ ((diffScript (splitLines A) (splitLines B)).filter isInsert).length
        + ((diffScript (splitLines A) (splitLines B)).filter isDelete).length
        + 2 * ((diffScript (splitLines A) (splitLines B)).filter isEqual).length
      = (splitLines A).length + (splitLines B).length :=
  diffScript_minimal (splitLines A) (splitLines B)

/-- Witness for C2 at the concrete pair ("a", "b"). -/
theorem claim2_minimality_witness :
    (splitLines "a").length * (splitLines "b").length ≤ 250000
    ∧ ((eqLines (diffScript (splitLines "a") (splitLines "b"))).Sublist (splitLines "a")
      ∧ (eqLines (diffScript (splitLines "a") (splitLines "b"))).Sublist (splitLines "b")
      ∧ (∀ l : List String, l.Sublist (splitLines "a") → l.Sublist (splitLines "b") →
          l.length ≤ (eqLines (diffScript (splitLines "a") (splitLines "b"))).length)
      ∧ ((diffScript (splitLines "a") (splitLines "b")).filter isInsert).length
          + ((diffScript (splitLines "a") (splitLines "b")).filter isDelete).length
          + 2 * ((diffScript (splitLines "a") (splitLines "b")).filter isEqual).length
        = (splitLines "a").length + (splitLines "b").length) :=
  ⟨by decide, claim2_minimality "a" "b" (by decide)⟩

theorem diffScript_ab_ba :
    diffScript ["a", "b"] ["b", "a"]
      = [DiffOp.insert "b", DiffOp.equal "a", DiffOp.delete "b"] := by
  simp [diffScript, backtrackRev, dirOf, lcsLen]

theorem buildUnifiedDiff_ab_ba : buildUnifiedDiff "a\nb" "b\na" = "+b\n a\n-b" := by
  have hA : splitLines "a\nb" = ["a", "b"] := by decide
  have hB : splitLines "b\na" = ["b", "a"] := by decide
  simp only [buildUnifiedDiff, hA, hB]
  rw [if_neg (by decide), diffScript_ab_ba]
  decide

/-- **C3** counterexample: on original lines ["a", "b"] and updated lines
["b", "a"], `buildUnifiedDiff` does not return the script claimed by the
spec (Delete "a", Equal "b", Insert "a", rendered "-a\n b\n+a"). -/
theorem claim3_counterexample : buildUnifiedDiff "a\nb" "b\na" ≠ "-a\n b\n+a" := by
  rw [buildUnifiedDiff_ab_ba]
  decide

/-- **C3** amended: on original lines ["a", "b"] and updated lines
["b", "a"], the up-preferring tie-break yields the three-operation
script Insert "b", Equal "a", Delete "b", rendered "+b\n a\n-b". -/
theorem claim3_amended :
    diffScript (splitLines "a\nb") (splitLines "b\na")
      = [DiffOp.insert "b", DiffOp.equal "a", DiffOp.delete "b"]
    ∧ buildUnifiedDiff "a\nb" "b\na" = "+b\n a\n-b" := by
  constructor
  · have hA : splitLines "a\nb" = ["a", "b"] := by decide
    have hB : splitLines "b\na" = ["b", "a"] := by decide
    rw [hA, hB, diffScript_ab_ba]
  · exact buildUnifiedDiff_ab_ba

theorem diffScript_empty_x :
    diffScript [""] ["x"] = [DiffOp.insert "x", DiffOp.delete ""] := by
  simp [diffScript, backtrackRev, dirOf, lcsLen]

theorem diffScript_x_empty :
    diffScript ["x"] [""] = [DiffOp.insert "", DiffOp.delete "x"] := by
  simp [diffScript, backtrackRev, dirOf, lcsLen]

theorem diffScript_empty_empty : diffScript [""] [""] = [DiffOp.equal ""] := by
  simp [diffScript, backtrackRev, dirOf, lcsLen]

/-- **C4** counterexample: `buildUnifiedDiff "" "x"` does not yield
exactly one Insert operation; tokenizing "" gives [""], so the script
also deletes the empty line. -/
theorem claim4_counterexample :
    diffScript (splitLines "") (splitLines "x") ≠ [DiffOp.insert "x"] := by
  have h0 : splitLines "" = [""] := by decide
  have hx : splitLines "x" = ["x"] := by decide
  rw [h0, hx, diffScript_empty_x]
  decide

/-- **C4** amended: `buildUnifiedDiff "" ""` yields exactly one Equal
operation carrying the empty line; `buildUnifiedDiff "" "x"` yields
exactly the two operations Insert "x" then Delete ""; and
`buildUnifiedDiff "x" ""` yields exactly Insert "" then Delete "x". -/
theorem claim4_amended :
    diffScript (splitLines "") (splitLines "") = [DiffOp.equal ""]
    ∧ buildUnifiedDiff "" "" = " "
    ∧ diffScript (splitLines "") (splitLines "x")
      = [DiffOp.insert "x", DiffOp.delete ""]
    ∧ buildUnifiedDiff "" "x" = "+x\n-"
    ∧ diffScript (splitLines "x") (splitLines "")
      = [DiffOp.insert "", DiffOp.delete "x"]
    ∧ buildUnifiedDiff "x" "" = "+\n-x" := by
  have h0 : splitLines "" = [""] := by decide
  have hx : splitLines "x" = ["x"] := by decide
  refine ⟨by rw [h0, diffScript_empty_empty], ?_, by rw [h0, hx, diffScript_empty_x], ?_,
    by rw [hx, h0, diffScript_x_empty], ?_⟩
  · simp only [buildUnifiedDiff, h0]
    rw [if_neg (by decide), diffScript_empty_empty]
    decide
  · simp only [buildUnifiedDiff, h0, hx]
    rw [if_neg (by decide), diffScript_empty_x]
    decide
  · simp only [buildUnifiedDiff, h0, hx]
    rw [if_neg (by decide), diffScript_x_empty]
    decide

/-- **C5** (modelled from the spec; the thread-aware argument builder is
not among the sources): mode new produces the plain execute vector
["exec", "--skip-git-repo-check", "-m", model, fullPrompt]; both resume
modes produce a different vector in an explicit resume form, and the
resume-specific form carries the target thread id. -/
theorem claim5_threadResumeArgs (model fullPrompt tid : String) :
    buildCodexArgs CodexThreadMode.new none model fullPrompt
      = ["exec", "--skip-git-repo-check", "-m", model, fullPrompt]
    ∧ buildCodexArgs CodexThreadMode.last none model fullPrompt
      ≠ ["exec", "--skip-git-repo-check", "-m", model, fullPrompt]
    ∧ buildCodexArgs CodexThreadMode.specific (some tid) model fullPrompt
      ≠ ["exec", "--skip-git-repo-check", "-m", model, fullPrompt]
    ∧ tid ∈ buildCodexArgs CodexThreadMode.specific (some tid) model fullPrompt := by
  refine ⟨rfl, ?_, ?_, ?_⟩
  · intro hc
    have hlen := congrArg List.length hc
    simp [buildCodexArgs] at hlen
  · intro hc
    have hlen := congrArg List.length hc
    simp [buildCodexArgs] at hlen
  · simp [buildCodexArgs]

/-- **C6**: settlement of the spawn promise is idempotent: once the state
after some event sequence is settled (by whichever of the timeout and
close paths fired first), any further events, including a late close or
a late timeout, leave the outcome untouched. -/
theorem claim6_idempotentSettlement (t : Nat) (evts more : List SpawnEvent)
    (h : (spawnRun t evts).settled = true) :
    (spawnRun t (evts ++ more)).settled = true
    ∧ (spawnRun t (evts ++ more)).outcome = (spawnRun t evts).outcome := by
  have hpres := foldl_spawnStep_of_settled t more (spawnRun t evts) h
  rw [spawnRun, List.foldl_append]
  exact hpres

/-- Witness for C6: a close settles the promise, and a timeout firing
afterwards does not alter the outcome. -/
theorem claim6_witness :
    (spawnRun 5 [SpawnEvent.close (some 0)]).settled = true
    ∧ ((spawnRun 5 ([SpawnEvent.close (some 0)] ++ [SpawnEvent.timeoutFire])).settled = true
      ∧ (spawnRun 5 ([SpawnEvent.close (some 0)] ++ [SpawnEvent.timeoutFire])).outcome
        = (spawnRun 5 [SpawnEvent.close (some 0)]).outcome) :=
  ⟨by decide,
    claim6_idempotentSettlement 5 [SpawnEvent.close (some 0)] [SpawnEvent.timeoutFire]
      (by decide)⟩

/-- **C7**: when the child closes while the promise is unsettled, exit
code 0 resolves with the trimmed accumulated stdout; a nonzero or null
code rejects with the trimmed stderr when that is non-empty, else with
the generic exit-code message. -/
theorem claim7_processExitMapping (t : Nat) (s : SpawnState) (code : Option Int)
    (h : s.settled = false) :
    (spawnStep t s (SpawnEvent.close (some 0))).outcome
      = some (Except.ok (jsTrim s.stdout))
    ∧ (code ≠ some 0 → jsTrim s.stderr ≠ "" →
      (spawnStep t s (SpawnEvent.close code)).outcome
        = some (Except.error (jsTrim s.stderr)))
    ∧ (code ≠ some 0 → jsTrim s.stderr = "" →
      (spawnStep t s (SpawnEvent.close code)).outcome
        = some (Except.error ("Codex CLI exited with code " ++ jsCodeString code ++ "."))) := by
  refine ⟨?_, ?_, ?_⟩
  · simp [spawnStep, h, closeOutcome]
  · intro hc he
    simp [spawnStep, h, closeOutcome, hc, he]
  · intro hc he
    simp [spawnStep, h, closeOutcome, hc, he]

/-- Witness for C7 at a concrete unsettled state with stdout " ok " and
stderr " bad ", closing with code 2. -/
theorem claim7_witness :
    ({ stdout := " ok ", stderr := " bad ", settled := false, outcome := none }
        : SpawnState).settled = false
    ∧ ((spawnStep 9 { stdout := " ok ", stderr := " bad ", settled := false, outcome := none }
          (SpawnEvent.close (some 0))).outcome = some (Except.ok (jsTrim " ok "))
      ∧ (some 2 ≠ (some 0 : Option Int) → jsTrim " bad " ≠ "" →
        (spawnStep 9 { stdout := " ok ", stderr := " bad ", settled := false, outcome := none }
          (SpawnEvent.close (some 2))).outcome = some (Except.error (jsTrim " bad ")))
      ∧ (some 2 ≠ (some 0 : Option Int) → jsTrim " bad " = "" →
        (spawnStep 9 { stdout := " ok ", stderr := " bad ", settled := false, outcome := none }
          (SpawnEvent.close (some 2))).outcome
          = some (Except.error ("Codex CLI exited with code " ++ jsCodeString (some 2) ++ ".")))) :=
  ⟨rfl, claim7_processExitMapping 9
    { stdout := " ok ", stderr := " bad ", settled := false, outcome := none } (some 2) rfl⟩

/-- **C8**: when the line-count product exceeds 250000,
`buildUnifiedDiff` returns the fixed sentinel string; otherwise it
returns the rendered edit script, which is never the sentinel. -/
theorem claim8_sizeGuard (A B : String) :
    ((splitLines A).length * (splitLines B).length > 250000 →
      buildUnifiedDiff A B = sentinelMessage)
    ∧ ((splitLines A).length * (splitLines B).length ≤ 250000 →
      buildUnifiedDiff A B
        = joinSep "\n" ((diffScript (splitLines A) (splitLines B)).map renderOp)
      ∧ buildUnifiedDiff A B ≠ sentinelMessage) := by
  constructor
  · intro hgt
    simp only [buildUnifiedDiff]
    rw [if_pos hgt]
  · intro hle
    have hrender : buildUnifiedDiff A B
        = joinSep "\n" ((diffScript (splitLines A) (splitLines B)).map renderOp) := by
      simp only [buildUnifiedDiff]
      rw [if_neg (not_lt.mpr hle)]
    refine ⟨hrender, ?_⟩
    rw [hrender]
    exact joinSep_render_ne_sentinel _
      (diffScript_ne_nil _ _ (splitLines_ne_nil A))

set_option maxRecDepth 8000 in
/-- Witness for C8: a 501-line text against itself trips the guard, and
the pair ("a", "b") stays under it. -/
theorem claim8_sizeGuard_witness :
    ((splitLines (String.mk (List.replicate 500 '\n'))).length
        * (splitLines (String.mk (List.replicate 500 '\n'))).length > 250000
      ∧ buildUnifiedDiff (String.mk (List.replicate 500 '\n'))
          (String.mk (List.replicate 500 '\n')) = sentinelMessage)
    ∧ ((splitLines "a").length * (splitLines "b").length ≤ 250000
      ∧ (buildUnifiedDiff "a" "b"
          = joinSep "\n" ((diffScript (splitLines "a") (splitLines "b")).map renderOp)
        ∧ buildUnifiedDiff "a" "b" ≠ sentinelMessage)) :=
  ⟨⟨by decide,
    (claim8_sizeGuard (String.mk (List.replicate 500 '\n'))
      (String.mk (List.replicate 500 '\n'))).1 (by decide)⟩,
   ⟨by decide, (claim8_sizeGuard "a" "b").2 (by decide)⟩⟩

/-- **C9**: on a successful responses-shape body, the trimmed top-level
output_text wins when non-empty; otherwise the structured output list is
walked, collecting every nested text block in list order and joining the
chunks with a blank line; the §8 example with blocks
[["hello"], ["world"]] normalizes to "hello\n\nworld". -/
theorem claim9_responsesNormalization :
    (∀ (ot : Option String) (out : Json), jsTrim (ot.getD "") ≠ "" →
      normalizeResponses ot out = Except.ok (jsTrim (ot.getD "")))
    ∧ (∀ (ot : Option String) (items : List Json), jsTrim (ot.getD "") = "" →
      extractTextFromResponseOutput (Json.arr items) ≠ "" →
      normalizeResponses ot (Json.arr items)
        = Except.ok (jsTrim (joinSep "\n\n" (collectBlocks items))))
    ∧ normalizeResponses (some "") responsesExampleBody = Except.ok "hello\n\nworld" := by
  refine ⟨?_, ?_, rfl⟩
  · intro ot out hne
    simp [normalizeResponses, hne]
  · intro ot items htop hout
    simp only [normalizeResponses, htop]
    rw [if_neg (by simp), if_neg hout, extract_eq_collect]

/-- Witness for C9: the top-level branch at output_text " x ", and the
walking branch at the §8 example body. -/
theorem claim9_witness :
    (jsTrim ((some " x " : Option String).getD "") ≠ ""
      ∧ normalizeResponses (some " x ") Json.null
        = Except.ok (jsTrim ((some " x " : Option String).getD "")))
    ∧ (jsTrim ((none : Option String).getD "") = ""
      ∧ extractTextFromResponseOutput (Json.arr responsesExampleOutput) ≠ ""
      ∧ normalizeResponses none (Json.arr responsesExampleOutput)
        = Except.ok (jsTrim (joinSep "\n\n" (collectBlocks responsesExampleOutput)))) :=
  ⟨⟨by decide, claim9_responsesNormalization.1 (some " x ") Json.null (by decide)⟩,
   ⟨rfl, by decide,
    claim9_responsesNormalization.2.1 none responsesExampleOutput rfl (by decide)⟩⟩

/-- **C10**: the structured-output walk trims each collected text block
individually and skips absent, non-string and whitespace-only blocks, so
every collected chunk is its own trim and non-empty, and the extracted
text is the trimmed blank-line join of those chunks. -/
theorem claim10_trimmedSegments (items : List Json) :
    extractTextFromResponseOutput (Json.arr items)
      = jsTrim (joinSep "\n\n" (collectBlocks items))
    ∧ ∀ c ∈ collectBlocks items, jsTrim c = c ∧ c ≠ "" :=
  ⟨extract_eq_collect items, fun c hc => collectBlocks_mem items c hc⟩

/-- Witness for C10 at the §8 example body and the chunk "hello". -/
theorem claim10_witness :
    extractTextFromResponseOutput (Json.arr responsesExampleOutput)
      = jsTrim (joinSep "\n\n" (collectBlocks responsesExampleOutput))
    ∧ "hello" ∈ collectBlocks responsesExampleOutput
    ∧ jsTrim "hello" = "hello" ∧ "hello" ≠ "" :=
  ⟨(claim10_trimmedSegments responsesExampleOutput).1, by decide,
    (claim10_trimmedSegments responsesExampleOutput).2 "hello" (by decide)⟩

end ObsidianAi
